import Mathlib

/-!
Verification of the requirement-formatter web application.

The development shallowly embeds the application's orchestration layer:

* the generation-service wrapper formatRequirements (geminiService), with the
  external service call and the JSON parse modelled as explicit parameters,
  and the number of external calls made tracked in the result;
* the file-selection handler handleFileSelection (InputPanel), acting on the
  raw-text buffer and the attachment list;
* the top-level application state machine (App): its fields, the handlers
  handleFormat / handleClear, and the user-interface preconditions (which
  controls are disabled in which states) as a step relation;
* the CSV export of OutputPanel (escapeCsvField, header row, byte-order mark),
  together with an RFC-4180-style CSV reader used to state round-trip
  properties.

JavaScript strings are modelled as List Char throughout, so that every
definition is executable by kernel reduction; jsTrim, jsToLower and
strEndsWith model String.prototype.trim, toLowerCase and endsWith.
-/

/-! ## JavaScript string primitives, modelled on List Char -/

def jsTrim (s : List Char) : List Char :=
  (((s.dropWhile Char.isWhitespace).reverse).dropWhile Char.isWhitespace).reverse

def jsToLower (s : List Char) : List Char := s.map Char.toLower

def strEndsWith (s suf : List Char) : Bool := suf.isSuffixOf s

/-! ## Data model (types.ts) -/

inductive AppStatus where
  | IDLE
  | LOADING
  | SUCCESS
  | ERROR
deriving DecidableEq, Repr

structure RequirementItem where
  group : List Char
  id : List Char
  sequence : Nat
  description : List Char
deriving DecidableEq, Repr

structure FormattedResult where
  markdownOutput : List Char
  requirementsList : List RequirementItem
deriving DecidableEq, Repr

/-! ## Generation service (geminiService.ts, structured-output mode)

The external service call is modelled by a ServiceOutcome parameter: either the
transport/service layer fails (generateContent throws), or it returns a raw
text payload. JSON.parse-into-FormattedResult is modelled by an abstract
function from payloads to Option FormattedResult (none corresponds to a
SyntaxError thrown by JSON.parse). formatRequirements returns its result
together with the number of external generateContent calls performed. -/

structure FilePart where
  mimeType : List Char
  data : List Char
deriving DecidableEq, Repr

inductive ServiceOutcome where
  | ok (payload : List Char)
  | failure
deriving DecidableEq, Repr

inductive FormatError where
  | invalidInput
  | parseError
  | commError
deriving DecidableEq, Repr

def formatRequirements (parseJson : List Char → Option FormattedResult)
    (rawText : List Char) (files : List FilePart) (svc : ServiceOutcome) :
    Except FormatError FormattedResult × Nat :=
  if jsTrim rawText = [] ∧ files = [] then
    (Except.error FormatError.invalidInput, 0)
  else
    match svc with
    | ServiceOutcome.failure => (Except.error FormatError.commError, 1)
    | ServiceOutcome.ok payload =>
      match parseJson payload with
      | none => (Except.error FormatError.parseError, 1)
      | some r => (Except.ok r, 1)

example : formatRequirements (fun _ => none) "  ".data [] ServiceOutcome.failure
    = (Except.error FormatError.invalidInput, 0) := rfl

example : formatRequirements (fun _ => none) "x".data [] ServiceOutcome.failure
    = (Except.error FormatError.commError, 1) := rfl

/-! ## File selection (InputPanel.tsx)

A selected file is modelled by its name, its declared media type, and (for
text files) its decoded textual content. handleFileSelection updates the
raw-text buffer and the attachment list exactly as the source handler does:
files whose declared type is in the binary allow-list, or whose lowercased
name ends in .hwp, are appended to the attachment list after filtering out
names already present among the accumulated attachments; files whose declared
type is in the text allow-list have their content merged into the raw-text
buffer, with a separator naming the file when the buffer is non-empty (the
source uses JavaScript truthiness of the previous buffer), and verbatim when
the buffer is empty. The source reads each text file asynchronously; the
model applies the completions in selection order, one linearisation of the
interleavings the specification allows. -/

structure FileData where
  name : List Char
  type : List Char
  content : List Char
deriving DecidableEq, Repr

def ALLOWED_BINARY_TYPES : List (List Char) :=
  ["image/jpeg".data, "image/png".data, "image/webp".data, "image/gif".data,
   "application/pdf".data,
   "application/msword".data,
   "application/vnd.openxmlformats-officedocument.wordprocessingml.document".data,
   "application/vnd.ms-powerpoint".data,
   "application/vnd.openxmlformats-officedocument.presentationml.presentation".data]

def ALLOWED_TEXT_TYPES : List (List Char) := ["text/plain".data, "text/markdown".data]

def isAllowedBinary (f : FileData) : Bool :=
  ALLOWED_BINARY_TYPES.contains f.type || strEndsWith (jsToLower f.name) ".hwp".data

def isAllowedText (f : FileData) : Bool := ALLOWED_TEXT_TYPES.contains f.type

def textImportSeparator (name : List Char) : List Char :=
  "\n\n--- (".data ++ name ++ " 파일 내용) ---\n".data

def appendTextImport (prev : List Char) (f : FileData) : List Char :=
  if prev ≠ [] then prev ++ textImportSeparator f.name ++ f.content else f.content

def handleFileSelection (rawText : List Char) (files : List FileData)
    (dropped : List FileData) : List Char × List FileData :=
  let binaryFiles := dropped.filter isAllowedBinary
  let textFiles := dropped.filter isAllowedText
  let existingNames := files.map (·.name)
  let newFiles := binaryFiles.filter (fun f => !existingNames.contains f.name)
  (textFiles.foldl appendTextImport rawText, files ++ newFiles)

example :
    handleFileSelection [] [] [⟨"a.txt".data, "text/plain".data, "hello".data⟩]
      = ("hello".data, []) := by decide

example :
    (handleFileSelection [] []
      [⟨"x.png".data, "image/png".data, []⟩, ⟨"x.png".data, "image/png".data, []⟩]).2.length
      = 2 := by decide

/-! ## Application state machine (App.tsx)

The state gathers the five useState hooks of the App component. The
handleFormat body is split into its synchronous part (the empty-input guard
and the transition into LOADING) and the completion of the asynchronous
formatRequirements call, whose outcome is a parameter. handleClear resets
every hook to its initial value. -/

structure AppState where
  rawText : List Char
  files : List FileData
  formattedResult : Option FormattedResult
  status : AppStatus
  error : Option (List Char)
deriving DecidableEq, Repr

def initState : AppState :=
  { rawText := [], files := [], formattedResult := none,
    status := AppStatus.IDLE, error := none }

def emptyInputMsg : List Char :=
  "포맷할 요구사항 텍스트를 입력하거나 이미지 파일을 추가해주세요.".data

def handleFormatSync (s : AppState) : AppState :=
  if jsTrim s.rawText = [] ∧ s.files = [] then
    { s with error := some emptyInputMsg, status := AppStatus.ERROR }
  else
    { s with status := AppStatus.LOADING, error := none, formattedResult := none }

inductive FormatOutcome where
  | success (r : FormattedResult)
  | failure (msg : List Char)

def applyOutcome (s : AppState) : FormatOutcome → AppState
  | FormatOutcome.success r =>
    { s with formattedResult := some r, status := AppStatus.SUCCESS }
  | FormatOutcome.failure msg =>
    { s with error := some ("요구사항 포맷 중 오류가 발생했습니다: ".data ++ msg),
             status := AppStatus.ERROR }

/-- Claim-independent user-interface step relation of the App component.
Each constructor records the precondition under which the source lets the
event fire: the textarea, the format button and the clear button are disabled
while LOADING; the format button is additionally disabled when the trimmed
text is empty and no file is attached; drag-and-drop file selection and
per-file removal carry no disabled attribute; the completion of the
asynchronous request can only arrive while LOADING. -/
inductive Step : AppState → AppState → Prop where
  | setText (s : AppState) (t : List Char) (h : s.status ≠ AppStatus.LOADING) :
      Step s { s with rawText := t }
  | fileSelect (s : AppState) (dropped : List FileData) :
      Step s { s with rawText := (handleFileSelection s.rawText s.files dropped).1,
                      files := (handleFileSelection s.rawText s.files dropped).2 }
  | removeFile (s : AppState) (i : Nat) :
      Step s { s with files := s.files.eraseIdx i }
  | format (s : AppState) (h₁ : s.status ≠ AppStatus.LOADING)
      (h₂ : ¬(jsTrim s.rawText = [] ∧ s.files = [])) :
      Step s (handleFormatSync s)
  | formatComplete (s : AppState) (o : FormatOutcome)
      (h : s.status = AppStatus.LOADING) :
      Step s (applyOutcome s o)
  | clear (s : AppState) (h : s.status ≠ AppStatus.LOADING) :
      Step s initState

inductive Reachable : AppState → Prop where
  | init : Reachable initState
  | step {s s' : AppState} : Reachable s → Step s s' → Reachable s'

/-! ## CSV export (OutputPanel.tsx, handleDownloadCsv)

escapeCsvField mirrors the source: a field containing a comma, a double
quote or a newline is wrapped in double quotes with every internal double
quote doubled (String.prototype.replace with a global regex, modelled by
dupQuotes); any other field is emitted unchanged. Rows are the four escaped
fields joined by commas (rowJoin models Array.prototype.join with separator
","), the file is the header row followed by one row per requirement item
joined by newlines (joinLines models join with separator "\n"), and the
download content carries a UTF-8 byte-order mark in front. -/

def dupQuotes : List Char → List Char
  | [] => []
  | c :: rest => if c = '"' then '"' :: '"' :: dupQuotes rest else c :: dupQuotes rest

def escapeCsvField (field : List Char) : List Char :=
  if field.contains ',' || field.contains '"' || field.contains '\n' then
    '"' :: dupQuotes field ++ ['"']
  else field

def rowJoin : List (List Char) → List Char
  | [] => []
  | [f] => f
  | f :: rest => f ++ ',' :: rowJoin rest

def joinLines : List (List Char) → List Char
  | [] => []
  | [r] => r
  | r :: rest => r ++ '\n' :: joinLines rest

def csvHeaderFields : List (List Char) :=
  ["요구사항 그룹".data, "요구사항 ID".data, "요구사항 순번".data, "상세내용".data]

def csvHeaderRow : List Char := rowJoin csvHeaderFields

def itemFields (i : RequirementItem) : List (List Char) :=
  [i.group, i.id, (Nat.repr i.sequence).data, i.description]

def itemRow (i : RequirementItem) : List Char :=
  rowJoin ((itemFields i).map escapeCsvField)

def csvContent (items : List RequirementItem) : List Char :=
  joinLines (csvHeaderRow :: items.map itemRow)

def csvBom : Char := '\uFEFF'

def csvBlob (items : List RequirementItem) : List Char := csvBom :: csvContent items

def handleDownloadCsv (fr : Option FormattedResult) : Option (List Char) :=
  match fr with
  | none => none
  | some r =>
    if r.requirementsList.length = 0 then none
    else some (csvBlob r.requirementsList)

/-! ## A standard CSV reader

The reader follows RFC 4180 with LF row terminators, matching the join
separator used by the export: a field is either quoted (doubled quotes
standing for a literal quote) or runs to the next comma or newline; fields
are separated by commas, rows by newlines. It is used only to state
round-trip properties of the export. -/

def splitUnquoted : List Char → List Char × List Char
  | [] => ([], [])
  | c :: rest =>
    if c = ',' ∨ c = '\n' then ([], c :: rest)
    else
      let p := splitUnquoted rest
      (c :: p.1, p.2)

def parseQuotedBody : List Char → Option (List Char × List Char)
  | [] => none
  | c :: rest =>
    if c = '"' then
      match rest with
      | [] => some ([], [])
      | c2 :: rest' =>
        if c2 = '"' then (parseQuotedBody rest').map (fun p => ('"' :: p.1, p.2))
        else some ([], rest)
    else (parseQuotedBody rest).map (fun p => (c :: p.1, p.2))

def parseField : List Char → Option (List Char × List Char)
  | [] => some ([], [])
  | c :: rest =>
    if c = '"' then parseQuotedBody rest
    else some (splitUnquoted (c :: rest))

theorem splitUnquoted_length (s : List Char) : (splitUnquoted s).2.length ≤ s.length := by
  induction s with
  | nil => simp [splitUnquoted]
  | cons c rest ih =>
    simp only [splitUnquoted]
    split
    · simp
    · simpa using Nat.le_succ_of_le ih

theorem parseQuotedBody_length :
    ∀ (s : List Char) (p : List Char × List Char),
      parseQuotedBody s = some p → p.2.length < s.length
  | [], p, h => by simp [parseQuotedBody] at h
  | [c], p, h => by
    simp only [parseQuotedBody] at h
    split at h
    · simp at h
      simp [← h]
    · simp [parseQuotedBody] at h
  | c :: c2 :: rest, p, h => by
    simp only [parseQuotedBody] at h
    split at h
    · split at h
      · match hq : parseQuotedBody rest with
        | none => rw [hq] at h; simp at h
        | some q =>
          rw [hq] at h
          simp at h
          have := parseQuotedBody_length rest q hq
          simp [← h]
          omega
      · simp at h
        simp [← h]
    · match hq : parseQuotedBody (c2 :: rest) with
      | none => rw [hq] at h; simp at h
      | some q =>
        rw [hq] at h
        simp at h
        have := parseQuotedBody_length (c2 :: rest) q hq
        simp at this
        simp [← h]
        omega

theorem parseField_length (s : List Char) (p : List Char × List Char)
    (h : parseField s = some p) : p.2.length ≤ s.length := by
  match s with
  | [] =>
    simp [parseField] at h
    simp [← h]
  | c :: rest =>
    simp only [parseField] at h
    split at h
    · exact Nat.le_of_lt (Nat.lt_succ_of_lt (parseQuotedBody_length rest p h))
    · simp at h
      have := splitUnquoted_length (c :: rest)
      rw [h] at this
      exact this

def parseRow (s : List Char) : Option (List (List Char) × List Char) :=
  match hf : parseField s with
  | none => none
  | some p =>
    match hr : p.2 with
    | [] => some ([p.1], [])
    | c :: rest' =>
      if c = ',' then
        match parseRow rest' with
        | none => none
        | some q => some (p.1 :: q.1, q.2)
      else some ([p.1], p.2)
termination_by s.length
decreasing_by
  have := parseField_length s p hf
  rw [hr] at this
  simp at this
  omega

theorem parseRow_length_aux :
    ∀ (n : Nat) (s : List Char), s.length ≤ n →
      ∀ q : List (List Char) × List Char, parseRow s = some q → q.2.length ≤ s.length := by
  intro n
  induction n with
  | zero =>
    intro s hs q h
    have hsnil : s = [] := List.length_eq_zero.mp (Nat.le_zero.mp hs)
    subst hsnil
    rw [parseRow] at h
    simp [parseField] at h
    simp [← h]
  | succ n ih =>
    intro s hs q h
    rw [parseRow] at h
    split at h
    · simp at h
    · rename_i p hf
      split at h
      · simp at h
        simp [← h]
      · rename_i c rest' hr
        split at h
        · split at h
          · simp at h
          · rename_i q' hq
            simp at h
            have h2 := parseField_length s p hf
            rw [hr] at h2
            simp at h2
            have h1 := ih rest' (by omega) q' hq
            simp [← h]
            omega
        · simp at h
          have h2 := parseField_length s p hf
          rw [hr] at h2
          rw [← h, hr]
          exact h2

theorem parseRow_length (s : List Char) (q : List (List Char) × List Char)
    (h : parseRow s = some q) : q.2.length ≤ s.length :=
  parseRow_length_aux s.length s (Nat.le_refl _) q h

def parseCsv (s : List Char) : Option (List (List (List Char))) :=
  match hr : parseRow s with
  | none => none
  | some q =>
    match hq : q.2 with
    | [] => some [q.1]
    | c :: rest =>
      if c = '\n' then (parseCsv rest).map (fun rs => q.1 :: rs)
      else none
termination_by s.length
decreasing_by
  have := parseRow_length s q hr
  rw [hq] at this
  simp at this
  omega

/-! ## Round trip of the CSV export through the reader -/

/-- What may legally follow a rendered field: nothing, a field separator, or a
row separator. -/
def sepOk : List Char → Prop
  | [] => True
  | c :: _ => c = ',' ∨ c = '\n'

/-- What may legally follow a rendered row: nothing or a row separator. -/
def rowSepOk : List Char → Prop
  | [] => True
  | c :: _ => c = '\n'

theorem sepOk_of_rowSepOk (r : List Char) (h : rowSepOk r) : sepOk r := by
  match r with
  | [] => trivial
  | c :: rest => exact Or.inr h

theorem splitUnquoted_append (f r : List Char)
    (hf : ∀ c ∈ f, ¬(c = ',' ∨ c = '\n')) (hr : sepOk r) :
    splitUnquoted (f ++ r) = (f, r) := by
  induction f with
  | nil =>
    simp only [List.nil_append]
    match r with
    | [] => simp [splitUnquoted]
    | c :: rest =>
      simp only [sepOk] at hr
      simp only [splitUnquoted]
      rw [if_pos hr]
  | cons a f' ih =>
    have ha : ¬(a = ',' ∨ a = '\n') := hf a (by simp)
    simp only [List.cons_append, splitUnquoted]
    rw [if_neg ha]
    have := ih (fun c hc => hf c (by simp [hc]))
    simp [this]

theorem parseQuotedBody_append (f r : List Char) (hr : sepOk r) :
    parseQuotedBody (dupQuotes f ++ '"' :: r) = some (f, r) := by
  induction f with
  | nil =>
    match r with
    | [] => simp [dupQuotes, parseQuotedBody]
    | c :: rest =>
      simp only [sepOk] at hr
      have hc : c ≠ '"' := by rcases hr with h | h <;> simp [h]
      simp [dupQuotes, parseQuotedBody, hc]
  | cons a f' ih =>
    by_cases ha : a = '"'
    · subst ha
      simp only [dupQuotes, if_pos rfl, List.cons_append]
      simp [parseQuotedBody, ih]
    · simp only [dupQuotes, if_neg ha, List.cons_append]
      rw [parseQuotedBody.eq_def]
      simp only []
      rw [if_neg ha, ih]
      rfl

theorem parseField_escape (f r : List Char) (hr : sepOk r) :
    parseField (escapeCsvField f ++ r) = some (f, r) := by
  by_cases hsp : (f.contains ',' || f.contains '"' || f.contains '\n') = true
  · rw [escapeCsvField, if_pos hsp]
    have hass : ('"' :: dupQuotes f ++ ['"']) ++ r = '"' :: (dupQuotes f ++ '"' :: r) := by
      simp
    rw [hass]
    simp [parseField, parseQuotedBody_append f r hr]
  · rw [escapeCsvField, if_neg hsp]
    simp only [Bool.or_eq_true, not_or, Bool.not_eq_true] at hsp
    obtain ⟨⟨hc, hq⟩, hn⟩ := hsp
    have hmem : ∀ c ∈ f, ¬(c = ',' ∨ c = '\n') := by
      intro c hcin
      rintro (rfl | rfl)
      · simp [List.contains_eq_any_beq] at hc
        exact absurd hcin (by simpa using hc)
      · simp [List.contains_eq_any_beq] at hn
        exact absurd hcin (by simpa using hn)
    match f with
    | [] =>
      simp only [List.nil_append]
      match r with
      | [] => simp [parseField]
      | c :: rest =>
        simp only [sepOk] at hr
        have hcq : c ≠ '"' := by rcases hr with h | h <;> simp [h]
        simp only [parseField, if_neg hcq]
        have hsplit : splitUnquoted (c :: rest) = ([], c :: rest) := by
          simp only [splitUnquoted]
          rw [if_pos hr]
        rw [hsplit]
    | a :: f' =>
      have haq : a ≠ '"' := by
        intro h
        subst h
        simp [List.contains_eq_any_beq] at hq
      simp only [List.cons_append, parseField, if_neg haq]
      rw [← List.cons_append]
      rw [splitUnquoted_append (a :: f') r hmem hr]

/-- A row as the export writes it: the escaped fields joined by commas. -/
def renderRow (fs : List (List Char)) : List Char := rowJoin (fs.map escapeCsvField)

theorem parseRow_renderRow :
    ∀ (fs : List (List Char)) (r : List Char), fs ≠ [] → rowSepOk r →
      parseRow (renderRow fs ++ r) = some (fs, r) := by
  intro fs
  induction fs with
  | nil => intro r h; exact absurd rfl h
  | cons f fs' ih =>
    intro r _ hr
    match fs' with
    | [] =>
      have hrow : renderRow [f] = escapeCsvField f := rfl
      rw [hrow, parseRow]
      rw [parseField_escape f r (sepOk_of_rowSepOk r hr)]
      simp only []
      match r with
      | [] => rfl
      | c :: rest =>
        simp only [rowSepOk] at hr
        subst hr
        simp
    | g :: gs =>
      have hrow : renderRow (f :: g :: gs) = escapeCsvField f ++ ',' :: renderRow (g :: gs) := rfl
      rw [hrow]
      have hass : (escapeCsvField f ++ ',' :: renderRow (g :: gs)) ++ r
          = escapeCsvField f ++ (',' :: (renderRow (g :: gs) ++ r)) := by simp
      rw [hass, parseRow]
      rw [parseField_escape f (',' :: (renderRow (g :: gs) ++ r)) (Or.inl rfl)]
      simp only []
      rw [ih r (by simp) hr]
      simp

theorem parseCsv_render :
    ∀ (rows : List (List (List Char))), rows ≠ [] → (∀ fs ∈ rows, fs ≠ []) →
      parseCsv (joinLines (rows.map renderRow)) = some rows := by
  intro rows
  induction rows with
  | nil => intro h; exact absurd rfl h
  | cons fs rows' ih =>
    intro _ hne
    match rows' with
    | [] =>
      have hjoin : joinLines ([fs].map renderRow) = renderRow fs := rfl
      rw [hjoin, parseCsv]
      have := parseRow_renderRow fs [] (hne fs (by simp)) trivial
      rw [List.append_nil] at this
      rw [this]
    | rs :: rest =>
      have hjoin : joinLines ((fs :: rs :: rest).map renderRow)
          = renderRow fs ++ '\n' :: joinLines ((rs :: rest).map renderRow) := rfl
      rw [hjoin, parseCsv]
      rw [parseRow_renderRow fs ('\n' :: joinLines ((rs :: rest).map renderRow))
        (hne fs (by simp)) rfl]
      simp only []
      rw [ih (by simp) (fun x hx => hne x (by simp [hx]))]
      rfl

theorem csvHeaderRow_renderRow : csvHeaderRow = renderRow csvHeaderFields := by decide

/-- Invariant of the application state machine: a formatted result is only
held in SUCCESS states. -/
theorem reachable_result_inv (s : AppState) (h : Reachable s) :
    s.formattedResult ≠ none → s.status = AppStatus.SUCCESS := by
  induction h with
  | init => simp [initState]
  | step hr hstep ih =>
    cases hstep with
    | setText t h => simpa using ih
    | fileSelect dropped => simpa using ih
    | removeFile i => simpa using ih
    | format h₁ h₂ =>
      rw [handleFormatSync, if_neg h₂]
      intro hres
      exact absurd rfl hres
    | formatComplete o h =>
      cases o with
      | success r => simp [applyOutcome]
      | failure m =>
        intro hres
        have hsucc := ih (by simpa [applyOutcome] using hres)
        rw [h] at hsucc
        exact absurd hsucc (by simp)
    | clear h => simp [initState]

theorem parseCsv_csvContent (items : List RequirementItem) :
    parseCsv (csvContent items) = some (csvHeaderFields :: items.map itemFields) := by
  have h1 : csvContent items
      = joinLines ((csvHeaderFields :: items.map itemFields).map renderRow) := by
    simp only [csvContent, List.map_cons, List.map_map, ← csvHeaderRow_renderRow]
    rfl
  rw [h1]
  apply parseCsv_render
  · simp
  · intro fs hfs
    rcases List.mem_cons.mp hfs with h | h
    · subst h; simp [csvHeaderFields]
    · obtain ⟨i, _, hi⟩ := List.mem_map.mp h
      rw [← hi]
      simp [itemFields]

/-! ## The claims -/

/-- Claim C1: for every input whose raw text is empty after trimming and whose
attached-file list is empty, formatRequirements fails with the InvalidInput
error and performs zero external generation-service calls; the App-level
handler likewise rejects such input synchronously, moving the state to ERROR
with the empty-input message and touching neither the result nor the service. -/
theorem C1_invalid_input_rejected_before_call :
    (∀ (parseJson : List Char → Option FormattedResult) (rawText : List Char)
        (files : List FilePart) (svc : ServiceOutcome),
        jsTrim rawText = [] → files = [] →
        formatRequirements parseJson rawText files svc
          = (Except.error FormatError.invalidInput, 0)) ∧
    (∀ s : AppState, jsTrim s.rawText = [] → s.files = [] →
        (handleFormatSync s).status = AppStatus.ERROR ∧
        (handleFormatSync s).error = some emptyInputMsg ∧
        (handleFormatSync s).formattedResult = s.formattedResult) := by
  constructor
  · intro parseJson rawText files svc h1 h2
    rw [formatRequirements.eq_def, if_pos ⟨h1, h2⟩]
  · intro s h1 h2
    rw [handleFormatSync, if_pos ⟨h1, h2⟩]
    exact ⟨rfl, rfl, rfl⟩

theorem C1_witness :
    formatRequirements (fun _ => none) "  ".data [] ServiceOutcome.failure
        = (Except.error FormatError.invalidInput, 0) ∧
    (handleFormatSync initState).status = AppStatus.ERROR :=
  ⟨C1_invalid_input_rejected_before_call.1 (fun _ => none) "  ".data []
      ServiceOutcome.failure (by decide) rfl,
   (C1_invalid_input_rejected_before_call.2 initState (by decide) rfl).1⟩

/-- Claim C3: once an invocation of formatRequirements passes the input guard
and reaches the external call, each failure mode surfaces as its own error:
a JSON-parse failure of the returned payload yields parseError, a
transport/service failure yields commError, and the two are distinct
constructors; a successfully parsed payload yields the parsed result. -/
theorem C3_error_taxonomy :
    ∀ (parseJson : List Char → Option FormattedResult) (rawText : List Char)
      (files : List FilePart),
      ¬(jsTrim rawText = [] ∧ files = []) →
      ((formatRequirements parseJson rawText files ServiceOutcome.failure).1
          = Except.error FormatError.commError) ∧
      (∀ payload, parseJson payload = none →
        (formatRequirements parseJson rawText files (ServiceOutcome.ok payload)).1
          = Except.error FormatError.parseError) ∧
      (∀ payload r, parseJson payload = some r →
        (formatRequirements parseJson rawText files (ServiceOutcome.ok payload)).1
          = Except.ok r) ∧
      FormatError.parseError ≠ FormatError.commError := by
  intro parseJson rawText files hguard
  refine ⟨?_, ?_, ?_, by decide⟩
  · rw [formatRequirements.eq_def, if_neg hguard]
  · intro payload hp
    rw [formatRequirements.eq_def, if_neg hguard]
    simp only [hp]
  · intro payload r hp
    rw [formatRequirements.eq_def, if_neg hguard]
    simp only [hp]

theorem C3_witness :
    ((formatRequirements
        (fun p => if p = "good".data then some ⟨"md".data, []⟩ else none)
        "x".data [] ServiceOutcome.failure).1
      = Except.error FormatError.commError) ∧
    ((formatRequirements
        (fun p => if p = "good".data then some ⟨"md".data, []⟩ else none)
        "x".data [] (ServiceOutcome.ok "bad".data)).1
      = Except.error FormatError.parseError) ∧
    ((formatRequirements
        (fun p => if p = "good".data then some ⟨"md".data, []⟩ else none)
        "x".data [] (ServiceOutcome.ok "good".data)).1
      = Except.ok ⟨"md".data, []⟩) := by
  have h := C3_error_taxonomy
    (fun p => if p = "good".data then some ⟨"md".data, []⟩ else none)
    "x".data [] (by decide)
  exact ⟨h.1, h.2.1 "bad".data (by decide), h.2.2.1 "good".data ⟨"md".data, []⟩ (by decide)⟩

/-- Claim C8: every invocation of formatRequirements that passes the input
guard performs exactly one external service call (no retry), and the outcome
is all-or-nothing: the invocation returns a FormattedResult exactly when the
service answered and its payload parsed completely, and returns an error
carrying no result otherwise. -/
theorem C8_single_call_all_or_nothing :
    ∀ (parseJson : List Char → Option FormattedResult) (rawText : List Char)
      (files : List FilePart) (svc : ServiceOutcome),
      ¬(jsTrim rawText = [] ∧ files = []) →
      (formatRequirements parseJson rawText files svc).2 = 1 ∧
      (∀ r : FormattedResult,
        (formatRequirements parseJson rawText files svc).1 = Except.ok r ↔
          ∃ payload, svc = ServiceOutcome.ok payload ∧ parseJson payload = some r) := by
  intro parseJson rawText files svc hguard
  cases svc with
  | failure =>
    rw [formatRequirements.eq_def, if_neg hguard]
    simp
  | ok payload =>
    rw [formatRequirements.eq_def, if_neg hguard]
    simp only []
    match hp : parseJson payload with
    | none => simp [hp]
    | some r' =>
      constructor
      · rfl
      · intro r
        simp only [Except.ok.injEq]
        constructor
        · intro hr
          exact ⟨payload, rfl, by rw [hp, hr]⟩
        · rintro ⟨p, hpeq, hps⟩
          cases hpeq
          rw [hp] at hps
          simpa using hps

theorem C8_witness :
    ((formatRequirements (fun _ => some ⟨"md".data, []⟩) "x".data []
        (ServiceOutcome.ok "p".data)).2 = 1) ∧
    ((formatRequirements (fun _ => some ⟨"md".data, []⟩) "x".data []
        (ServiceOutcome.ok "p".data)).1 = Except.ok ⟨"md".data, []⟩ ↔
      ∃ payload, ServiceOutcome.ok "p".data = ServiceOutcome.ok payload ∧
        (fun _ : List Char => some (⟨"md".data, []⟩ : FormattedResult)) payload
          = some ⟨"md".data, []⟩) := by
  have h := C8_single_call_all_or_nothing (fun _ => some ⟨"md".data, []⟩)
    "x".data [] (ServiceOutcome.ok "p".data) (by decide)
  exact ⟨h.1, h.2 ⟨"md".data, []⟩⟩

/-- Claim C2: the CSV export writes a field value unchanged when it contains
no comma, double quote, or newline, and otherwise wraps it in double quotes
with each internal double quote doubled; consequently a standard CSV reader
recovers every original field value exactly, both field by field and for a
whole exported file. -/
theorem C2_csv_escape_roundtrip :
    (∀ f : List Char,
        (f.contains ',' || f.contains '"' || f.contains '\n') = false →
        escapeCsvField f = f) ∧
    (∀ f : List Char,
        (f.contains ',' || f.contains '"' || f.contains '\n') = true →
        escapeCsvField f = '"' :: dupQuotes f ++ ['"']) ∧
    (∀ f r : List Char, sepOk r → parseField (escapeCsvField f ++ r) = some (f, r)) ∧
    (∀ items : List RequirementItem,
        parseCsv (csvContent items) = some (csvHeaderFields :: items.map itemFields)) := by
  refine ⟨?_, ?_, ?_, parseCsv_csvContent⟩
  · intro f h
    rw [escapeCsvField, if_neg (by simp_all)]
  · intro f h
    rw [escapeCsvField, if_pos h]
  · intro f r hr
    exact parseField_escape f r hr

theorem C2_witness :
    escapeCsvField "ab".data = "ab".data ∧
    escapeCsvField "a,b".data = '"' :: dupQuotes "a,b".data ++ ['"'] ∧
    parseField (escapeCsvField "a\"b\nc".data ++ [',']) = some ("a\"b\nc".data, [',']) ∧
    parseCsv (csvContent [⟨"G".data, "FE-001".data, 1, "a, b".data⟩])
      = some (csvHeaderFields :: [⟨"G".data, "FE-001".data, 1, "a, b".data⟩].map itemFields) :=
  ⟨C2_csv_escape_roundtrip.1 "ab".data (by decide),
   C2_csv_escape_roundtrip.2.1 "a,b".data (by decide),
   C2_csv_escape_roundtrip.2.2.1 "a\"b\nc".data [','] (Or.inl rfl),
   C2_csv_escape_roundtrip.2.2.2 [⟨"G".data, "FE-001".data, 1, "a, b".data⟩]⟩

/-- Claim C7: the CSV export consists of the UTF-8 byte-order mark, then the
fixed header row naming the four columns group, identifier, sequence and
description in that order, then exactly one comma-delimited data row per
RequirementItem in list order, rows separated by newlines: reading the
content back yields the header fields followed by the four field values of
each item, in order. -/
theorem C7_csv_file_structure :
    ∀ items : List RequirementItem,
      csvBlob items = csvBom :: csvContent items ∧
      csvBom.toNat = 0xFEFF ∧
      csvContent items = joinLines (csvHeaderRow :: items.map itemRow) ∧
      csvHeaderFields = ["요구사항 그룹".data, "요구사항 ID".data,
        "요구사항 순번".data, "상세내용".data] ∧
      parseCsv (csvContent items) = some (csvHeaderFields :: items.map itemFields) ∧
      (∀ i : RequirementItem,
        itemFields i = [i.group, i.id, (Nat.repr i.sequence).data, i.description]) := by
  intro items
  exact ⟨rfl, by decide, rfl, rfl, parseCsv_csvContent items, fun i => rfl⟩

/-- Claim C10: the CSV download is a no-op when the result is absent or its
requirement list is empty, and whenever it does produce a file, that file is
the byte-order mark followed by CSV text whose parse has the header row plus
at least one data row. -/
theorem C10_csv_download_guard :
    (handleDownloadCsv none = none) ∧
    (∀ r : FormattedResult, r.requirementsList = [] →
        handleDownloadCsv (some r) = none) ∧
    (∀ (fr : Option FormattedResult) (content : List Char),
        handleDownloadCsv fr = some content →
        content.head? = some csvBom ∧
        ∃ rows, parseCsv (content.drop 1) = some rows ∧ 2 ≤ rows.length) := by
  refine ⟨rfl, ?_, ?_⟩
  · intro r hr
    rw [handleDownloadCsv]
    rw [if_pos (by rw [hr]; rfl)]
  · intro fr content h
    match fr with
    | none => simp [handleDownloadCsv] at h
    | some r =>
      rw [handleDownloadCsv] at h
      split at h
      · simp at h
      · rename_i hlen
        simp only [Option.some.injEq] at h
        subst h
        refine ⟨rfl, csvHeaderFields :: r.requirementsList.map itemFields, ?_, ?_⟩
        · show parseCsv (csvContent r.requirementsList) = _
          exact parseCsv_csvContent r.requirementsList
        · simp only [List.length_cons, List.length_map]
          omega

theorem C10_witness :
    (handleDownloadCsv (some ⟨"md".data, []⟩) = none) ∧
    ((csvBlob [⟨"G".data, "FE-001".data, 1, "d".data⟩]).head? = some csvBom ∧
      ∃ rows, parseCsv ((csvBlob [⟨"G".data, "FE-001".data, 1, "d".data⟩]).drop 1)
          = some rows ∧ 2 ≤ rows.length) :=
  ⟨C10_csv_download_guard.2.1 ⟨"md".data, []⟩ rfl,
   C10_csv_download_guard.2.2
     (some ⟨"md".data, [⟨"G".data, "FE-001".data, 1, "d".data⟩]⟩)
     (csvBlob [⟨"G".data, "FE-001".data, 1, "d".data⟩]) rfl⟩

/-- Claim C4: in every reachable application state a FormattedResult is held
only in SUCCESS states; consequently every ERROR state holds no result;
starting a new request (passing the guard and entering LOADING) clears the
previous result; and whenever the clear control is enabled, the reset step
returns the machine to the initial state, which is Idle with no result. -/
theorem C4_result_only_on_success :
    ∀ s : AppState, Reachable s →
      (s.formattedResult ≠ none → s.status = AppStatus.SUCCESS) ∧
      (s.status = AppStatus.ERROR → s.formattedResult = none) ∧
      (¬(jsTrim s.rawText = [] ∧ s.files = []) →
        (handleFormatSync s).formattedResult = none ∧
        (handleFormatSync s).status = AppStatus.LOADING) ∧
      (s.status ≠ AppStatus.LOADING → Step s initState) ∧
      initState = { rawText := [], files := [], formattedResult := none,
                    status := AppStatus.IDLE, error := none } := by
  intro s hs
  refine ⟨reachable_result_inv s hs, ?_, ?_, ?_, rfl⟩
  · intro herr
    match hres : s.formattedResult with
    | none => rfl
    | some r =>
      have hsucc := reachable_result_inv s hs (by rw [hres]; simp)
      rw [herr] at hsucc
      exact absurd hsucc (by decide)
  · intro hguard
    rw [handleFormatSync, if_neg hguard]
    exact ⟨rfl, rfl⟩
  · intro hload
    exact Step.clear s hload

theorem C4_witness :
    (applyOutcome (handleFormatSync { initState with rawText := "hi".data })
        (FormatOutcome.failure "boom".data)).formattedResult = none ∧
    (applyOutcome (handleFormatSync { initState with rawText := "hi".data })
        (FormatOutcome.failure "boom".data)).status = AppStatus.ERROR := by
  have h1 : Reachable { initState with rawText := "hi".data } :=
    Reachable.step Reachable.init (Step.setText initState "hi".data (by decide))
  have h2 : Reachable (handleFormatSync { initState with rawText := "hi".data }) :=
    Reachable.step h1 (Step.format _ (by decide) (by decide))
  have h3 : Reachable (applyOutcome (handleFormatSync { initState with rawText := "hi".data })
      (FormatOutcome.failure "boom".data)) :=
    Reachable.step h2 (Step.formatComplete _ (FormatOutcome.failure "boom".data) (by decide))
  exact ⟨(C4_result_only_on_success _ h3).2.1 (by decide), by decide⟩

/-- Claim C5 counterexample: two files with identical names selected in one
batch are both retained, because the handler deduplicates only against the
attachments accumulated before the batch. The claim asserts that exactly one
would be retained even within a single selection batch; at this input the
handler retains two. -/
theorem C5_counterexample :
    (handleFileSelection [] []
        [⟨"x.png".data, "image/png".data, []⟩, ⟨"x.png".data, "image/png".data, []⟩]).2
      = [⟨"x.png".data, "image/png".data, []⟩, ⟨"x.png".data, "image/png".data, []⟩] ∧
    (handleFileSelection [] []
        [⟨"x.png".data, "image/png".data, []⟩, ⟨"x.png".data, "image/png".data, []⟩]).2.length
      ≠ 1 := by decide

/-- Claim C5 as amended: attachments are deduplicated by name against the
already-accumulated attachment list only. Adding an allowed binary file whose
name is not yet present appends it; adding any file with that same name in a
later batch is silently dropped; and when no prior attachment had the name,
exactly one attachment with the name is retained. Duplicates within a single
batch are not deduplicated. -/
theorem C5_dedup_across_batches :
    ∀ (raw raw' : List Char) (files : List FileData) (f g : FileData),
      isAllowedBinary f = true →
      (files.map (fun h => h.name)).contains f.name = false →
      g.name = f.name →
      (handleFileSelection raw files [f]).2 = files ++ [f] ∧
      (handleFileSelection raw' (files ++ [f]) [g]).2 = files ++ [f] ∧
      (files ++ [f]).countP (fun h => h.name == f.name) = 1 := by
  intro raw raw' files f g hbin hno hname
  have hnotmem : f.name ∉ files.map (fun h => h.name) := by
    intro hmem
    rw [List.contains_eq_any_beq, List.any_eq_false] at hno
    simpa using hno _ hmem
  refine ⟨?_, ?_, ?_⟩
  · simp only [handleFileSelection, List.filter_cons, List.filter_nil, hbin, if_true, hno]
    simp
  · have hcontains : ((files ++ [f]).map (fun h => h.name)).contains g.name = true := by
      rw [hname, List.contains_eq_any_beq, List.any_eq_true]
      exact ⟨f.name, by simp, by simp⟩
    match hgbin : isAllowedBinary g with
    | false =>
      simp only [handleFileSelection, List.filter_cons, List.filter_nil, hgbin]
      simp
    | true =>
      simp only [handleFileSelection, List.filter_cons, List.filter_nil, hgbin,
        if_true, hcontains]
      simp
  · rw [List.countP_append]
    have h0 : files.countP (fun h => h.name == f.name) = 0 := by
      rw [List.countP_eq_zero]
      intro a ha
      simp only [beq_iff_eq]
      intro heq
      exact hnotmem (List.mem_map.mpr ⟨a, ha, heq⟩)
    rw [h0]
    simp

theorem C5_witness :
    (handleFileSelection [] [] [⟨"x.png".data, "image/png".data, []⟩]).2
        = [] ++ [⟨"x.png".data, "image/png".data, []⟩] ∧
    (handleFileSelection "t".data ([] ++ [⟨"x.png".data, "image/png".data, []⟩])
        [⟨"x.png".data, "application/pdf".data, []⟩]).2
        = [] ++ [⟨"x.png".data, "image/png".data, []⟩] ∧
    (([] ++ [⟨"x.png".data, "image/png".data, []⟩] : List FileData)).countP
        (fun h => h.name == "x.png".data) = 1 :=
  C5_dedup_across_batches [] "t".data [] ⟨"x.png".data, "image/png".data, []⟩
    ⟨"x.png".data, "application/pdf".data, []⟩ (by decide) (by decide) rfl

/-- Claim C6 counterexample: the claim asserts that an imported text file's
content is always appended with a separator naming the file, for every state
of the text buffer including the empty buffer, and that such a file is never
added to the attachment list. At an empty buffer the handler stores the
content verbatim with no separator (the separator would mention the file
name a.txt), and a text/plain file whose name ends in .hwp is also added to
the attachment list. -/
theorem C6_counterexample :
    (handleFileSelection [] [] [⟨"a.txt".data, "text/plain".data, "hello".data⟩]).1
        = "hello".data ∧
    "hello".data ≠ [] ++ textImportSeparator "a.txt".data ++ "hello".data ∧
    (handleFileSelection [] [] [⟨"b.hwp".data, "text/plain".data, "x".data⟩]).2
        = [⟨"b.hwp".data, "text/plain".data, "x".data⟩] := by decide

/-- Claim C6 as amended: for every imported plain-text or Markdown file whose
name does not end in .hwp (case-insensitive), the decoded content is merged
into the raw-text buffer — prefixed by a separator line naming the file when
the buffer is non-empty, and stored verbatim when the buffer is empty — and
the file is not added to the attachment list. -/
theorem C6_text_import :
    ∀ (raw : List Char) (files : List FileData) (f : FileData),
      isAllowedText f = true →
      strEndsWith (jsToLower f.name) ".hwp".data = false →
      handleFileSelection raw files [f]
        = (if raw ≠ [] then raw ++ textImportSeparator f.name ++ f.content
           else f.content,
           files) := by
  intro raw files f htext hhwp
  have htype : f.type = "text/plain".data ∨ f.type = "text/markdown".data := by
    rw [isAllowedText, List.contains_eq_any_beq, List.any_eq_true] at htext
    obtain ⟨x, hx, hbeq⟩ := htext
    rw [beq_iff_eq] at hbeq
    simp only [ALLOWED_TEXT_TYPES, List.mem_cons, List.mem_singleton,
      List.not_mem_nil, or_false] at hx
    rcases hx with h | h
    · left; exact hbeq.trans h
    · right; exact hbeq.trans h
  have hbinctn : ALLOWED_BINARY_TYPES.contains f.type = false := by
    rcases htype with h | h <;> rw [h] <;> decide
  have hbin : isAllowedBinary f = false := by
    rw [isAllowedBinary, hbinctn, hhwp]
    rfl
  simp only [handleFileSelection, List.filter_cons, List.filter_nil, hbin, htext,
    if_true, List.foldl_cons, List.foldl_nil, List.append_nil]
  simp [appendTextImport]

theorem C6_witness :
    handleFileSelection "abc".data [] [⟨"a.txt".data, "text/plain".data, "hi".data⟩]
      = (if "abc".data ≠ [] then
           "abc".data ++ textImportSeparator "a.txt".data ++ "hi".data
         else "hi".data,
         []) :=
  C6_text_import "abc".data [] ⟨"a.txt".data, "text/plain".data, "hi".data⟩
    (by decide) (by decide)

/-- Claim C9: a selected file whose declared media type is neither in the
binary allow-list nor in the text allow-list, and whose name does not end in
.hwp case-insensitively, is silently discarded by the file-selection handler:
the raw-text buffer and the attachment list are left exactly as they were,
and no error is produced. -/
theorem C9_disallowed_files_ignored :
    ∀ (raw : List Char) (files : List FileData) (f : FileData),
      ALLOWED_BINARY_TYPES.contains f.type = false →
      ALLOWED_TEXT_TYPES.contains f.type = false →
      strEndsWith (jsToLower f.name) ".hwp".data = false →
      handleFileSelection raw files [f] = (raw, files) := by
  intro raw files f hbinctn htextctn hhwp
  have hbin : isAllowedBinary f = false := by
    rw [isAllowedBinary, hbinctn, hhwp]
    rfl
  have htext : isAllowedText f = false := by
    rw [isAllowedText, htextctn]
  simp only [handleFileSelection, List.filter_cons, List.filter_nil, hbin, htext,
    List.foldl_nil, List.append_nil]
  simp

theorem C9_witness :
    handleFileSelection "t".data [⟨"b.png".data, "image/png".data, []⟩]
        [⟨"run.exe".data, "application/zip".data, []⟩]
      = ("t".data, [⟨"b.png".data, "image/png".data, []⟩]) :=
  C9_disallowed_files_ignored "t".data [⟨"b.png".data, "image/png".data, []⟩]
    ⟨"run.exe".data, "application/zip".data, []⟩ (by decide) (by decide) (by decide)
